import Mathlib

/-!
# Verification of the bracket-detection core of `LdrToHdrCalibration.py`

This file is a shallow embedding, in Lean 4, of the pure computational core of
`meshroom/nodes/aliceVision/LdrToHdrCalibration.py`:

* `findMetadata` (lines 11-26 of the source): tolerant metadata key lookup;
* `LdrToHdrCalibration.getExposure` (lines 300-332): the exposure-value formula;
* the bracket-detection part of `LdrToHdrCalibration.update` (lines 181-298):
  metadata extraction, sorting, the grouping walk and the bracket-size selector.

Modelling conventions:

* Python strings are modelled as `List Char` (`PStr`).  `str.lower()` is
  modelled as character-wise `Char.toLower` (exact for ASCII, which is all the
  source's key aliases use); `replace(" ", "")` as a filter; `split(sep)[-1]`
  as the segment after the last separator.
* Python floats are modelled as exact rationals `ℚ`.  Machine-float rounding,
  infinities and NaNs are outside the model; accordingly `math.isfinite` is
  identically true in the model and the literal `1e-6` is the exact rational
  `1/1000000`.  For `getExposure`, whose source uses `math.sqrt`, the file also
  gives a real-valued embedding `LdrToHdrCalibration.getExposure` that follows
  the source literally (with `Real.sqrt`), and `getExposureQ_eq_real` proves
  that the executable rational version used in the grouping walk agrees with it
  exactly.
* `pow(2.0, aperture / 2.0)` (line 228 of the source, the APEX aperture
  conversion) is an irrational-valued float operation; every definition that
  depends on it is parametrised by an arbitrary total function
  `apexPow : ℚ → ℚ` standing for it, and every theorem quantifies over that
  parameter, so nothing proved here depends on its values.
* Python exceptions are modelled by `Option`: a computation that raises
  (`TypeError` from `str / float`, `ValueError` from `float(...)` on a
  non-numeric string) is `none`.  Python dictionaries are association lists in
  insertion order (keys unique in actual dicts; `d.get` takes the first match,
  iteration follows list order).
* Python truthiness matters in the source (`not fnumber`,
  `prevExposure and ...`): it is modelled by explicit `truthy` tests
  (`0`, `0.0`, `""` and `None` are falsy, everything else truthy).
* `list.sort()` on `(path, (fnumber, shutterSpeed, iso))` tuples is the unique
  ascending reordering under the lexicographic *total* order on those tuples
  (path first).  It is embedded as a structural insertion sort `sortBy`;
  `sortBy_sorted`/`sortBy_perm` prove it produces the sorted permutation, which
  characterises it uniquely (`sortBy_eq_of_perm`), so it is extensionally the
  sort the source performs.
-/

/-- Python strings, as their character lists. -/
abbrev PStr := List Char

/-- An exposure triple `(fnumber, shutterSpeed, iso)` as built on line 239. -/
abbrev Triple := ℚ × ℚ × ℚ

/-- One element of the source's `inputs` list: `(viewpoint.path.value, triple)`. -/
abbrev Entry := PStr × Triple

/-- `s.lower()` (character-wise; exact on ASCII). -/
def pyLower (s : PStr) : PStr := s.map Char.toLower

/-- `s.replace(" ", "")`. -/
def stripSpaces (s : PStr) : PStr := s.filter (fun c => c ≠ ' ')

/-- `s.split(sep)[-1]`: the (possibly empty) segment after the last `sep`. -/
def lastSeg (sep : Char) (s : PStr) : PStr :=
  (s.reverse.takeWhile (fun c => c ≠ sep)).reverse

/-- `os.path.dirname` (POSIX): everything up to the last `/`, with trailing
slashes stripped unless the result is all slashes. -/
def dirname (p : PStr) : PStr :=
  let head := (p.reverse.dropWhile (fun c => c ≠ '/')).reverse
  if head.all (fun c => c = '/') then head
  else (head.reverse.dropWhile (fun c => c = '/')).reverse

/-- `d.get(key, None)` on an association-list dictionary: first exact match. -/
def dictGet {α : Type} (d : List (PStr × α)) (k : PStr) : Option α :=
  match d with
  | [] => none
  | (dk, dv) :: rest => if dk = k then some dv else dictGet rest k

/-- The inner loop of `findMetadata` (source lines 18-25): scan the record's
items in order; for each item first compare the lower-cased, space-stripped
record key with the lower-cased alias, then the same with the namespace prefix
(up to the last `:`, then the last `/`) stripped from the record key. -/
def scanRecord {α : Type} (d : List (PStr × α)) (key : PStr) : Option α :=
  match d with
  | [] => none
  | (dk, dv) :: rest =>
    let dkm := stripSpaces (pyLower dk)
    if dkm = pyLower key then some dv
    else if lastSeg '/' (lastSeg ':' dkm) = pyLower key then some dv
    else scanRecord rest key

/-- `findMetadata` (source lines 11-26): try each alias in order; exact
dictionary hit first, then the tolerant scan; fall back to the default. -/
def findMetadata {α : Type} (d : List (PStr × α)) (keys : List PStr) (dflt : α) : α :=
  match keys with
  | [] => dflt
  | key :: rest =>
    match dictGet d key with
    | some v => v
    | none =>
      match scanRecord d key with
      | some v => v
      | none => findMetadata d rest dflt

/-- A JSON scalar metadata value: a number or a string (the two kinds the
source's arithmetic distinguishes; JSON booleans and nulls are outside the
model). -/
inductive MetaValue where
  | num (q : ℚ)
  | str (s : PStr)
deriving DecidableEq

/-- Python truthiness of a metadata value: `0`, `0.0` and `""` are falsy. -/
def truthy : MetaValue → Bool
  | .num q => decide (q ≠ 0)
  | .str s => decide (s ≠ [])

/-- Digits of a decimal literal, as a natural number. -/
def natOfDigits (ds : PStr) : ℕ :=
  ds.foldl (fun acc c => acc * 10 + (c.toNat - 48)) 0

/-- Modelled from the spec: the unsigned part of Python's `float(str)` parser,
restricted to plain decimal literals (digits with at most one point; no
exponent, no `inf`/`nan`, no surrounding whitespace).  The claims proved below
only depend on it accepting plain decimals and rejecting non-numeric text,
which agrees with the real parser on every input used here. -/
def parseUnsigned (cs : PStr) : Option ℚ :=
  let intPart := cs.takeWhile Char.isDigit
  let rest := cs.dropWhile Char.isDigit
  match rest with
  | [] => if intPart = [] then none else some (natOfDigits intPart)
  | '.' :: frac =>
    if frac.all Char.isDigit ∧ (intPart ≠ [] ∨ frac ≠ []) then
      some ((natOfDigits intPart : ℚ) + (natOfDigits frac : ℚ) / 10 ^ frac.length)
    else none
  | _ => none

/-- Python `float(str)`, with an optional sign. -/
def pyFloatOfStr (cs : PStr) : Option ℚ :=
  match cs with
  | '-' :: rest => (parseUnsigned rest).map (fun q => -q)
  | '+' :: rest => parseUnsigned rest
  | _ => parseUnsigned cs

/-- Python `float(v)` on a metadata value; `none` models a raised `ValueError`. -/
def pyFloat : MetaValue → Option ℚ
  | .num q => some q
  | .str s => pyFloatOfStr s

/-- Source lines 221-228: resolve the f-number, falling back to the APEX
aperture value (`fnumber = pow(2.0, aperture / 2.0)`, modelled by the `apexPow`
parameter).  `none` models the `TypeError` Python raises when the resolved
aperture value is a string (`aperture / 2.0` on a `str`). -/
def getFnumber (apexPow : ℚ → ℚ) (d : List (PStr × MetaValue)) : Option MetaValue :=
  let fnumber := findMetadata d ["FNumber".toList] (.str [])
  if fnumber = .str [] then
    let aperture := findMetadata d
      ["Exif:ApertureValue".toList, "ApertureValue".toList, "Aperture".toList] (.str [])
    if aperture = .str [] then some (.num (-1))
    else
      match aperture with
      | .num a => some (.num (apexPow a))
      | .str _ => none
  else some fnumber

/-- A viewpoint as `update` reads it: a path and its JSON metadata record
(`none` models an empty/missing `viewpoint.metadata.value`, which is falsy). -/
structure Viewpoint where
  path : PStr
  metadata : Option (List (PStr × MetaValue))
deriving DecidableEq

/-- Outcome of processing one viewpoint in the loop at source lines 213-239:
either an early `return` with a final bracket count (`abort`), or one entry
appended to `inputs`. -/
inductive Extracted where
  | abort (nb : ℕ)
  | entry (e : Entry)
deriving DecidableEq

/-- The body of the loop at source lines 213-239 for one viewpoint: missing
metadata aborts with 0; then the f-number, shutter speed and ISO are resolved;
if the f-number and the shutter speed are both *falsy* the loop aborts with 1
(this is the literal `not fnumber and not shutterSpeed` test: the `-1.0`
sentinel is truthy); otherwise the three values are converted with `float`
(which can raise, i.e. return `none`) and the entry is produced. -/
def extractOne (apexPow : ℚ → ℚ) (v : Viewpoint) : Option Extracted :=
  match v.metadata with
  | none => some (.abort 0)
  | some d => do
    let fnumber ← getFnumber apexPow d
    let shutterSpeed := findMetadata d
      ["ExposureTime".toList, "Exif:ShutterSpeedValue".toList,
       "ShutterSpeedValue".toList, "ShutterSpeed".toList] (.num (-1))
    let iso := findMetadata d
      ["Exif:PhotographicSensitivity".toList, "PhotographicSensitivity".toList,
       "Photographic Sensitivity".toList, "ISO".toList] (.num (-1))
    if truthy fnumber = false ∧ truthy shutterSpeed = false then
      return .abort 1
    else do
      let fq ← pyFloat fnumber
      let sq ← pyFloat shutterSpeed
      let iq ← pyFloat iso
      return .entry (v.path, (fq, sq, iq))

/-- Result of the whole extraction loop: an early return with a final count, or
the completed `inputs` list. -/
inductive CollectResult where
  | done (nb : ℕ)
  | inputs (l : List Entry)
deriving DecidableEq

/-- The extraction loop over all viewpoints (source lines 212-239). -/
def collect (apexPow : ℚ → ℚ) : List Viewpoint → Option CollectResult
  | [] => some (.inputs [])
  | v :: rest =>
    match extractOne apexPow v with
    | none => none
    | some (.abort nb) => some (.done nb)
    | some (.entry e) =>
      match collect apexPow rest with
      | none => none
      | some (.done nb) => some (.done nb)
      | some (.inputs l) => some (.inputs (e :: l))

/-- `LdrToHdrCalibration.getExposure` (source lines 300-332), executable
rational version.  It follows the source line by line except that the
sensitivity correction `isoToAperture = math.sqrt(iso / refIso)` only ever
enters the result through the square
`expIncrease = (lRefFnumber / newFnumber) * (lRefFnumber / newFnumber)` with
`newFnumber = fnumber * isoToAperture`, so the square root is eliminated
exactly: `expIncrease = lRefFnumber² / (fnumber² * (iso / refIso))`.
`getExposureQ_eq_real` below proves this agrees with the literal real-valued
embedding `LdrToHdrCalibration.getExposure` below.  (`math.isfinite` is
identically true on exact rationals; the call sites in `update` use the
default references `refIso = 100`, `refFnumber = 1`.) -/
def LdrToHdrCalibration.getExposureQ (exp : Triple) (refIso refFnumber : ℚ) : ℚ :=
  let fnumber := exp.1
  let shutterSpeed := exp.2.1
  let iso := exp.2.2
  if ¬ shutterSpeed > 0 ∧ ¬ fnumber > 0 then -1
  else
    let shutterSpeed1 := if ¬ shutterSpeed > 0 then 1/200 else shutterSpeed
    let fnumber1 := if ¬ fnumber > 0 then (if refFnumber > 0 then refFnumber else 2) else fnumber
    let lRefFnumber := if ¬ refFnumber > 0 then fnumber1 else refFnumber
    let isoToApertureSq := if iso > 1/1000000 ∧ refIso > 1/1000000 then iso / refIso else 1
    let expIncrease := (lRefFnumber * lRefFnumber) / (fnumber1 * fnumber1 * isoToApertureSq)
    shutterSpeed1 * expIncrease

/-- `LdrToHdrCalibration.getExposure` (source lines 300-332), literal
real-valued embedding with `Real.sqrt` for `math.sqrt`.  `validShutterSpeed`,
`validFnumber` and `validRefFnumber` are the source's positivity tests
(`math.isfinite` holds of every real in the model). -/
noncomputable def LdrToHdrCalibration.getExposure (exp : ℝ × ℝ × ℝ) (refIso refFnumber : ℝ) : ℝ :=
  let fnumber := exp.1
  let shutterSpeed := exp.2.1
  let iso := exp.2.2
  if ¬ shutterSpeed > 0 ∧ ¬ fnumber > 0 then -1
  else
    let shutterSpeed1 := if ¬ shutterSpeed > 0 then 1/200 else shutterSpeed
    let fnumber1 := if ¬ fnumber > 0 then (if refFnumber > 0 then refFnumber else 2) else fnumber
    let lRefFnumber := if ¬ refFnumber > 0 then fnumber1 else refFnumber
    let isoToAperture := if iso > 1/1000000 ∧ refIso > 1/1000000 then Real.sqrt (iso / refIso) else 1
    let newFnumber := fnumber1 * isoToAperture
    let expIncrease := (lRefFnumber / newFnumber) * (lRefFnumber / newFnumber)
    shutterSpeed1 * expIncrease

/-- The exposure-value contract exactly as claim C3 reads the spec: in
particular `effectiveReferenceAperture` falls back to the image's own
*corrected (sensitivity-scaled)* aperture when the reference aperture is
invalid.  (The source instead falls back to the substituted but *unscaled*
aperture; see `getExposure_reference_fallback_counterexample`.) -/
noncomputable def getExposureSpecClaim (exp : ℝ × ℝ × ℝ) (refIso refFnumber : ℝ) : ℝ :=
  let aperture := exp.1
  let shutter := exp.2.1
  let sensitivity := exp.2.2
  if ¬ shutter > 0 ∧ ¬ aperture > 0 then -1
  else
    let shutter1 := if shutter > 0 then shutter else 1/200
    let aperture1 := if aperture > 0 then aperture else (if refFnumber > 0 then refFnumber else 2)
    let corr := if sensitivity > 1/1000000 ∧ refIso > 1/1000000 then Real.sqrt (sensitivity / refIso) else 1
    let effectiveAperture := aperture1 * corr
    let effectiveReferenceAperture := if refFnumber > 0 then refFnumber else effectiveAperture
    shutter1 * (effectiveReferenceAperture / effectiveAperture) ^ 2

/-- The exposure-value contract in the spec's words, amended where the
counterexample forces it: `effectiveReferenceAperture` falls back to the
image's own substituted aperture *before* the sensitivity scaling. -/
noncomputable def getExposureSpecAmended (exp : ℝ × ℝ × ℝ) (refIso refFnumber : ℝ) : ℝ :=
  let aperture := exp.1
  let shutter := exp.2.1
  let sensitivity := exp.2.2
  if ¬ shutter > 0 ∧ ¬ aperture > 0 then -1
  else
    let shutter1 := if shutter > 0 then shutter else 1/200
    let aperture1 := if aperture > 0 then aperture else (if refFnumber > 0 then refFnumber else 2)
    let corr := if sensitivity > 1/1000000 ∧ refIso > 1/1000000 then Real.sqrt (sensitivity / refIso) else 1
    let effectiveAperture := aperture1 * corr
    let effectiveReferenceAperture := if refFnumber > 0 then refFnumber else aperture1
    shutter1 * (effectiveReferenceAperture / effectiveAperture) ^ 2

/-- Lexicographic strict order on character lists, as Python compares `str`
(by code point; a proper prefix is smaller). -/
def pstrLt : PStr → PStr → Bool
  | [], [] => false
  | [], _ :: _ => true
  | _ :: _, [] => false
  | a :: as, b :: bs => decide (a < b) || (decide (a = b) && pstrLt as bs)

/-- Non-strict lexicographic order on exposure triples, as Python compares the
nested tuples `(fnumber, (shutterSpeed, iso))`-free tuples
`(fnumber, shutterSpeed, iso)`. -/
def tripleLe (a b : Triple) : Bool :=
  decide (a.1 < b.1) ||
    (decide (a.1 = b.1) &&
      (decide (a.2.1 < b.2.1) ||
        (decide (a.2.1 = b.2.1) && decide (a.2.2 ≤ b.2.2))))

/-- Non-strict lexicographic order on `inputs` entries, as Python compares the
`(path, (fnumber, shutterSpeed, iso))` tuples on line 240: the path is the
*primary* key. -/
def entryLe (a b : Entry) : Bool :=
  pstrLt a.1 b.1 || (decide (a.1 = b.1) && tripleLe a.2 b.2)

/-- Stable structural sort; extensionally the unique ascending reordering
under a total, transitive, antisymmetric `le`, hence the embedding of both
`inputs.sort()` (line 240) and, with the count-descending order, of Python's
stable `sorted` inside `Counter.most_common` (line 291). -/
def sortBy {α : Type} (le : α → α → Bool) (l : List α) : List α :=
  List.insertionSort (fun a b => le a b = true) l

/-- `inputs.sort()` (source line 240). -/
def sortInputs (l : List Entry) : List Entry := sortBy entryLe l

/-- The loop state of the grouping walk (source lines 242-270). -/
structure WalkState where
  exposureGroups : List (List Triple)
  exposures : List Triple
  prevPath : Option PStr
  prevExposure : Option ℚ
  newGroup : Bool
deriving DecidableEq

/-- Initial walk state (source lines 242-249). -/
def initWalkState : WalkState :=
  { exposureGroups := [], exposures := [], prevPath := none,
    prevExposure := none, newGroup := false }

/-- One iteration of the grouping walk (source lines 250-270): a directory
change sets `newGroup`; the Python condition
`prevExposure and currentExposure < prevExposure or newGroup` opens a new group
(`prevExposure` of `None` or `0.0` is falsy, so the wrap-around test is skipped
then); otherwise the entry joins the current group. -/
def walkStep (s : WalkState) (pe : Entry) : WalkState :=
  let path := pe.1
  let exp := pe.2
  let newGroup : Bool :=
    if s.prevPath.isSome ∧ s.prevPath ≠ some (dirname path) then true else s.newGroup
  let currentExposure := LdrToHdrCalibration.getExposureQ exp 100 1
  let cond : Bool :=
    (match s.prevExposure with
     | some e => decide (e ≠ 0) && decide (currentExposure < e)
     | none => false) || newGroup
  if cond then
    { exposureGroups := s.exposureGroups ++ [s.exposures], exposures := [exp],
      prevPath := some (dirname path), prevExposure := some currentExposure,
      newGroup := false }
  else
    { exposureGroups := s.exposureGroups, exposures := s.exposures ++ [exp],
      prevPath := some (dirname path), prevExposure := some currentExposure,
      newGroup := false }

/-- The grouping walk over an (already sorted) input list, including the final
`exposureGroups.append(exposures)` (source line 272). -/
def walkGroups (l : List Entry) : List (List Triple) :=
  let s := l.foldl walkStep initWalkState
  s.exposureGroups ++ [s.exposures]

/-- The exposure groups `update` builds from an input list: sort, then walk. -/
def exposureGroupsOf (l : List Entry) : List (List Triple) :=
  walkGroups (sortInputs l)

/-- One step of building the `Counter` of group sizes (source line 285):
increment the existing entry or append a new one (insertion order, as Python
`Counter` preserves it). -/
def counterAdd (acc : List (ℕ × ℕ)) (s : ℕ) : List (ℕ × ℕ) :=
  if acc.any (fun p => p.1 = s) then
    acc.map (fun p => if p.1 = s then (p.1, p.2 + 1) else p)
  else acc ++ [(s, 1)]

/-- `Counter(sizes)` as a `(size, count)` association list in first-occurrence
order. -/
def countUp (sizes : List ℕ) : List (ℕ × ℕ) := sizes.foldl counterAdd []

/-- `bracketSizes.most_common()` (source line 291): the counter entries, stably
sorted by descending count. -/
def mostCommon (l : List (ℕ × ℕ)) : List (ℕ × ℕ) :=
  sortBy (fun a b => decide (b.2 ≤ a.2)) l

/-- The selection loop over `most_common()` (source lines 290-295): keep the
entry with the strictly larger count; on a count tie prefer the larger size. -/
def bestTupleFold (best : Option (ℕ × ℕ)) : List (ℕ × ℕ) → Option (ℕ × ℕ)
  | [] => best
  | t :: rest =>
    let best' :=
      match best with
      | none => some t
      | some b =>
        if t.2 > b.2 then some t
        else if t.2 = b.2 then (if t.1 > b.1 then some t else some b)
        else some b
    bestTupleFold best' rest

/-- Source lines 274-298 applied to the walk's groups: a single group yields 1
(all exposures equal) or the group size; otherwise the histogram of group sizes
is built and the majority size (ties to the larger size) is reported. -/
def selectFromGroups (groups : List (List Triple)) : ℕ :=
  if groups.length = 1 then
    let g := groups.headD []
    if g.dedup.length = 1 then 1 else g.length
  else
    let bracketSizes := countUp (groups.map List.length)
    if bracketSizes.length = 0 then 0
    else ((bestTupleFold none (mostCommon bracketSizes)).getD (0, 0)).1

/-- Source lines 240-298: the bracket count computed from a completed `inputs`
list: sort, walk, select. -/
def computeNbBrackets (l : List Entry) : ℕ :=
  selectFromGroups (exposureGroupsOf l)

/-- The bracket-detection part of `LdrToHdrCalibration.update` (source lines
190-298), as a function of the user-forced count and the viewpoints, returning
`(nbBrackets, userNbBrackets.validValue)`; `none` models a raised exception.
A nonzero user count is used as-is, with the validity flag recording the
divisibility check (lines 190-200); otherwise the metadata are extracted
(early returns 0 and 1 included) and the grouping runs. -/
def LdrToHdrCalibration.update (apexPow : ℚ → ℚ) (userNbBrackets : ℕ)
    (viewpoints : List Viewpoint) : Option (ℕ × Bool) :=
  if userNbBrackets ≠ 0 then
    some (userNbBrackets, decide (viewpoints.length % userNbBrackets = 0))
  else
    match collect apexPow viewpoints with
    | none => none
    | some (.done nb) => some (nb, true)
    | some (.inputs l) => some (computeNbBrackets l, true)

/-- First-match lookup in a `(size, count)` association list. -/
def cntLookup (l : List (ℕ × ℕ)) (s : ℕ) : Option ℕ :=
  match l with
  | [] => none
  | (k, c) :: rest => if k = s then some c else cntLookup rest s

/-- `b` lexicographically dominates `t`: strictly larger count, or equal count
and at-least-as-large size. -/
def countLexGe (b t : ℕ × ℕ) : Prop := t.2 < b.2 ∨ (t.2 = b.2 ∧ t.1 ≤ b.1)

/-- Fallback used to read off the entry a good viewpoint extracts to. -/
def extractEntry (apexPow : ℚ → ℚ) (v : Viewpoint) : Entry :=
  match extractOne apexPow v with
  | some (.entry e) => e
  | _ => ([], (0, 0, 0))

/-- The metadata record carries only numeric values. -/
def numericOnly (v : Viewpoint) : Prop :=
  ∀ d, v.metadata = some d → ∀ kv ∈ d, ∃ q : ℚ, kv.2 = MetaValue.num q

/-- An alias `a` matches a record key `k` under one of `findMetadata`'s three
rules: exact, case-insensitive space-stripped, or additionally
namespace-stripped. -/
def aliasHits (a k : PStr) : Prop :=
  k = a ∨ stripSpaces (pyLower k) = pyLower a ∨
    lastSeg '/' (lastSeg ':' (stripSpaces (pyLower k))) = pyLower a

instance (a k : PStr) : Decidable (aliasHits a k) :=
  inferInstanceAs (Decidable (k = a ∨ stripSpaces (pyLower k) = pyLower a ∨
    lastSeg '/' (lastSeg ':' (stripSpaces (pyLower k))) = pyLower a))

/-! ## Concrete inputs used by the claim witnesses and counterexamples -/

/-- A concrete instantiation of the `apexPow` parameter, used only where a
closed term is required; no claim depends on its values. -/
def apexPow0 : ℚ → ℚ := fun _ => 0

/-- Metadata with neither an aperture nor a shutter-speed key: both resolve to
the `-1.0` sentinel. -/
def vpMissingExposure : Viewpoint :=
  ⟨"a/x.jpg".toList, some [("ISO".toList, .num 100)]⟩

/-- Fully resolvable metadata. -/
def vpGoodExposure : Viewpoint :=
  ⟨"a/y.jpg".toList, some [("FNumber".toList, .num 1),
    ("ExposureTime".toList, .num 2), ("ISO".toList, .num 100)]⟩

/-- A viewpoint with no metadata blob at all. -/
def vpNoMetadata : Viewpoint := ⟨"a/z.jpg".toList, none⟩

/-- Metadata whose f-number and shutter speed are the falsy value `0`. -/
def vpFalsyExposure : Viewpoint :=
  ⟨"a/w.jpg".toList, some [("FNumber".toList, .num 0), ("ExposureTime".toList, .num 0)]⟩

/-- Metadata whose aperture value is a string: `pow(2.0, aperture / 2.0)`
raises `TypeError` in the source. -/
def vpStringAperture : Viewpoint :=
  ⟨"a/s.jpg".toList, some [("ApertureValue".toList, .str "f4".toList)]⟩

/-- Sixteen images in four directories: two bracket groups of size 3 and two
of size 5, every image with the same exposure triple, so the walk groups them
by directory alone and the histogram is `{3: 2, 5: 2}`. -/
def histEntries : List Entry :=
  [("a/1".toList, ((2 : ℚ), (1 : ℚ), (100 : ℚ))), ("a/2".toList, (2, 1, 100)),
   ("a/3".toList, (2, 1, 100)),
   ("b/1".toList, (2, 1, 100)), ("b/2".toList, (2, 1, 100)), ("b/3".toList, (2, 1, 100)),
   ("c/1".toList, (2, 1, 100)), ("c/2".toList, (2, 1, 100)), ("c/3".toList, (2, 1, 100)),
   ("c/4".toList, (2, 1, 100)), ("c/5".toList, (2, 1, 100)),
   ("d/1".toList, (2, 1, 100)), ("d/2".toList, (2, 1, 100)), ("d/3".toList, (2, 1, 100)),
   ("d/4".toList, (2, 1, 100)), ("d/5".toList, (2, 1, 100))]

/-- Three images of one capture: two at one exposure, a third at a larger one;
a single group with mixed but not all-distinct triples. -/
def mixedEntries : List Entry :=
  [("d/p1.jpg".toList, ((1 : ℚ), (1 : ℚ), (100 : ℚ))),
   ("d/p2.jpg".toList, (1, 1, 100)),
   ("d/p3.jpg".toList, (1, 2, 100))]

/-! ## Order facts for the sort keys -/

theorem pstrLt_trans (a : PStr) : ∀ b c, pstrLt a b → pstrLt b c → pstrLt a c := by
  induction a with
  | nil =>
    intro b c hab hbc
    cases b with
    | nil => simp [pstrLt] at hab
    | cons x xs =>
      cases c with
      | nil => simp [pstrLt] at hbc
      | cons y ys => simp [pstrLt]
  | cons a as ih =>
    intro b c hab hbc
    cases b with
    | nil => simp [pstrLt] at hab
    | cons x xs =>
      cases c with
      | nil => simp [pstrLt] at hbc
      | cons y ys =>
        simp only [pstrLt, Bool.or_eq_true, Bool.and_eq_true, decide_eq_true_eq] at hab hbc ⊢
        rcases hab with h1 | ⟨rfl, h2⟩
        · rcases hbc with g1 | ⟨rfl, g2⟩
          · exact Or.inl (lt_trans h1 g1)
          · exact Or.inl h1
        · rcases hbc with g1 | ⟨rfl, g2⟩
          · exact Or.inl g1
          · exact Or.inr ⟨rfl, ih _ _ h2 g2⟩

theorem pstrLt_irrefl (a : PStr) : ¬ pstrLt a a := by
  induction a with
  | nil => simp [pstrLt]
  | cons a as ih => simp [pstrLt, ih]

theorem pstrLt_trichotomy (a : PStr) : ∀ b, pstrLt a b ∨ a = b ∨ pstrLt b a := by
  induction a with
  | nil =>
    intro b
    cases b with
    | nil => exact Or.inr (Or.inl rfl)
    | cons x xs => exact Or.inl (by simp [pstrLt])
  | cons a as ih =>
    intro b
    cases b with
    | nil => exact Or.inr (Or.inr (by simp [pstrLt]))
    | cons x xs =>
      simp only [pstrLt, Bool.or_eq_true, Bool.and_eq_true, decide_eq_true_eq]
      rcases lt_trichotomy a x with h | rfl | h
      · exact Or.inl (Or.inl h)
      · rcases ih xs with h2 | rfl | h2
        · exact Or.inl (Or.inr ⟨rfl, h2⟩)
        · exact Or.inr (Or.inl rfl)
        · exact Or.inr (Or.inr (Or.inr ⟨rfl, h2⟩))
      · exact Or.inr (Or.inr (Or.inl h))

theorem tripleLe_total (a b : Triple) : tripleLe a b ∨ tripleLe b a := by
  simp only [tripleLe, Bool.or_eq_true, Bool.and_eq_true, decide_eq_true_eq]
  rcases lt_trichotomy a.1 b.1 with h | h | h
  · exact Or.inl (Or.inl h)
  · rcases lt_trichotomy a.2.1 b.2.1 with h2 | h2 | h2
    · exact Or.inl (Or.inr ⟨h, Or.inl h2⟩)
    · rcases le_total a.2.2 b.2.2 with h3 | h3
      · exact Or.inl (Or.inr ⟨h, Or.inr ⟨h2, h3⟩⟩)
      · exact Or.inr (Or.inr ⟨h.symm, Or.inr ⟨h2.symm, h3⟩⟩)
    · exact Or.inr (Or.inr ⟨h.symm, Or.inl h2⟩)
  · exact Or.inr (Or.inl h)

theorem tripleLe_trans (a b c : Triple) : tripleLe a b → tripleLe b c → tripleLe a c := by
  simp only [tripleLe, Bool.or_eq_true, Bool.and_eq_true, decide_eq_true_eq]
  rintro (h1 | ⟨e1, h1⟩) (g1 | ⟨f1, g1⟩)
  · exact Or.inl (lt_trans h1 g1)
  · exact Or.inl (f1 ▸ h1)
  · exact Or.inl (e1 ▸ g1)
  · refine Or.inr ⟨e1.trans f1, ?_⟩
    rcases h1 with h2 | ⟨e2, h2⟩
    · rcases g1 with g2 | ⟨f2, g2⟩
      · exact Or.inl (lt_trans h2 g2)
      · exact Or.inl (f2 ▸ h2)
    · rcases g1 with g2 | ⟨f2, g2⟩
      · exact Or.inl (e2 ▸ g2)
      · exact Or.inr ⟨e2.trans f2, le_trans h2 g2⟩

theorem tripleLe_antisymm (a b : Triple) : tripleLe a b → tripleLe b a → a = b := by
  simp only [tripleLe, Bool.or_eq_true, Bool.and_eq_true, decide_eq_true_eq]
  rintro (h1 | ⟨e1, h1⟩) (g1 | ⟨f1, g1⟩)
  · exact absurd (lt_trans h1 g1) (lt_irrefl _)
  · exact absurd h1 (f1 ▸ lt_irrefl _)
  · exact absurd g1 (e1 ▸ lt_irrefl _)
  · have h2 : a.2 = b.2 := by
      rcases h1 with h2 | ⟨e2, h2⟩
      · rcases g1 with g2 | ⟨f2, g2⟩
        · exact absurd (lt_trans h2 g2) (lt_irrefl _)
        · exact absurd h2 (f2 ▸ lt_irrefl _)
      · rcases g1 with g2 | ⟨f2, g2⟩
        · exact absurd g2 (e2 ▸ lt_irrefl _)
        · exact Prod.ext e2 (le_antisymm h2 g2)
    exact Prod.ext e1 h2

theorem entryLe_total (a b : Entry) : entryLe a b ∨ entryLe b a := by
  simp only [entryLe, Bool.or_eq_true, Bool.and_eq_true, decide_eq_true_eq]
  rcases pstrLt_trichotomy a.1 b.1 with h | h | h
  · exact Or.inl (Or.inl h)
  · rcases tripleLe_total a.2 b.2 with h2 | h2
    · exact Or.inl (Or.inr ⟨h, h2⟩)
    · exact Or.inr (Or.inr ⟨h.symm, h2⟩)
  · exact Or.inr (Or.inl h)

theorem entryLe_trans (a b c : Entry) : entryLe a b → entryLe b c → entryLe a c := by
  simp only [entryLe, Bool.or_eq_true, Bool.and_eq_true, decide_eq_true_eq]
  rintro (h1 | ⟨e1, h1⟩) (g1 | ⟨f1, g1⟩)
  · exact Or.inl (pstrLt_trans _ _ _ h1 g1)
  · exact Or.inl (f1 ▸ h1)
  · exact Or.inl (e1 ▸ g1)
  · exact Or.inr ⟨e1.trans f1, tripleLe_trans _ _ _ h1 g1⟩

theorem entryLe_antisymm (a b : Entry) : entryLe a b → entryLe b a → a = b := by
  simp only [entryLe, Bool.or_eq_true, Bool.and_eq_true, decide_eq_true_eq]
  rintro (h1 | ⟨e1, h1⟩) (g1 | ⟨f1, g1⟩)
  · exact absurd (pstrLt_trans _ _ _ h1 g1) (pstrLt_irrefl _)
  · exact absurd h1 (f1 ▸ pstrLt_irrefl _)
  · exact absurd g1 (e1 ▸ pstrLt_irrefl _)
  · exact Prod.ext e1 (tripleLe_antisymm _ _ h1 g1)

/-! ## The sort produces the unique ascending reordering -/

theorem sortBy_perm {α : Type} (le : α → α → Bool) (l : List α) : (sortBy le l).Perm l :=
  List.perm_insertionSort _ l

theorem sortBy_sorted {α : Type} (le : α → α → Bool)
    (htot : ∀ a b, le a b ∨ le b a) (htrans : ∀ a b c, le a b → le b c → le a c)
    (l : List α) : List.Sorted (fun a b => le a b = true) (sortBy le l) :=
  @List.sorted_insertionSort _ _ _ ⟨htot⟩ ⟨htrans⟩ l

theorem sortBy_eq_of_perm {α : Type} (le : α → α → Bool)
    (htot : ∀ a b, le a b ∨ le b a) (htrans : ∀ a b c, le a b → le b c → le a c)
    (hanti : ∀ a b, le a b → le b a → a = b)
    {l₁ l₂ : List α} (h : l₁.Perm l₂) : sortBy le l₁ = sortBy le l₂ :=
  @List.eq_of_perm_of_sorted _ _ ⟨hanti⟩ _ _
    ((sortBy_perm le l₁).trans (h.trans (sortBy_perm le l₂).symm))
    (sortBy_sorted le htot htrans l₁) (sortBy_sorted le htot htrans l₂)

/-- `inputs.sort()` is a function of the multiset of `(path, triple)` pairs:
sorting any two permutations of the same entries gives the same list. -/
theorem sortInputs_eq_of_perm {l₁ l₂ : List Entry} (h : l₁.Perm l₂) :
    sortInputs l₁ = sortInputs l₂ :=
  sortBy_eq_of_perm entryLe entryLe_total entryLe_trans entryLe_antisymm h

/-! ## The grouping walk is a partition of its input -/

/-- Whatever the branch conditions decide, one walk step either closes the
current group and opens `[e.2]`, or appends `e.2` to the current group; either
way it records the entry's directory and exposure value. -/
theorem walkStep_cases (s : WalkState) (e : Entry) :
    walkStep s e =
      ⟨s.exposureGroups ++ [s.exposures], [e.2], some (dirname e.1),
        some (LdrToHdrCalibration.getExposureQ e.2 100 1), false⟩ ∨
    walkStep s e =
      ⟨s.exposureGroups, s.exposures ++ [e.2], some (dirname e.1),
        some (LdrToHdrCalibration.getExposureQ e.2 100 1), false⟩ := by
  simp only [walkStep]
  split
  · split
    · exact Or.inl rfl
    · exact Or.inr rfl
  · split
    · exact Or.inl rfl
    · exact Or.inr rfl

theorem walkStep_flatten (s : WalkState) (e : Entry) :
    ((walkStep s e).exposureGroups ++ [(walkStep s e).exposures]).flatten
      = (s.exposureGroups ++ [s.exposures]).flatten ++ [e.2] := by
  rcases walkStep_cases s e with h | h <;> rw [h] <;>
    simp [List.flatten_append, List.append_assoc]

theorem walk_foldl_flatten (l : List Entry) : ∀ s : WalkState,
    ((l.foldl walkStep s).exposureGroups ++ [(l.foldl walkStep s).exposures]).flatten
      = (s.exposureGroups ++ [s.exposures]).flatten ++ l.map Prod.snd := by
  induction l with
  | nil => intro s; simp
  | cons e rest ih =>
    intro s
    simp only [List.foldl_cons, List.map_cons]
    rw [ih (walkStep s e), walkStep_flatten]
    simp [List.append_assoc]

/-- The concatenation of the walk's groups is exactly the triples of the walked
list, in order. -/
theorem walkGroups_flatten (l : List Entry) :
    (walkGroups l).flatten = l.map Prod.snd := by
  unfold walkGroups
  rw [walk_foldl_flatten]
  simp [initWalkState]

theorem walkStep_groups_ne (s : WalkState) (e : Entry)
    (h1 : ∀ g ∈ s.exposureGroups, g ≠ []) (h2 : s.exposures ≠ []) :
    (∀ g ∈ (walkStep s e).exposureGroups, g ≠ []) ∧ (walkStep s e).exposures ≠ [] := by
  rcases walkStep_cases s e with h | h <;> rw [h]
  · refine ⟨?_, by simp⟩
    intro g hg
    rcases List.mem_append.1 hg with h' | h'
    · exact h1 g h'
    · simp only [List.mem_singleton] at h'
      exact h' ▸ h2
  · exact ⟨h1, by simp⟩

theorem walk_foldl_ne (l : List Entry) : ∀ s : WalkState,
    (∀ g ∈ s.exposureGroups, g ≠ []) → s.exposures ≠ [] →
    ∀ g ∈ ((l.foldl walkStep s).exposureGroups ++ [(l.foldl walkStep s).exposures]), g ≠ [] := by
  induction l with
  | nil =>
    intro s h1 h2 g hg
    rcases List.mem_append.1 hg with h | h
    · exact h1 g h
    · simp only [List.mem_singleton] at h
      exact h ▸ h2
  | cons e rest ih =>
    intro s h1 h2
    exact ih (walkStep s e) (walkStep_groups_ne s e h1 h2).1 (walkStep_groups_ne s e h1 h2).2

/-- The first step of the walk from the initial state always appends: with no
previous exposure and no previous path the Python condition is falsy. -/
theorem walkStep_init (e : Entry) :
    walkStep initWalkState e =
      ⟨[], [e.2], some (dirname e.1),
        some (LdrToHdrCalibration.getExposureQ e.2 100 1), false⟩ := by
  simp [walkStep, initWalkState]

/-- On a non-empty list every group the walk produces is non-empty. -/
theorem walkGroups_ne (l : List Entry) (hl : l ≠ []) : ∀ g ∈ walkGroups l, g ≠ [] := by
  match l with
  | [] => exact absurd rfl hl
  | e :: rest =>
    show ∀ g ∈ ((rest.foldl walkStep (walkStep initWalkState e)).exposureGroups ++
      [(rest.foldl walkStep (walkStep initWalkState e)).exposures]), g ≠ []
    refine walk_foldl_ne rest (walkStep initWalkState e) ?_ ?_ <;>
      rw [walkStep_init] <;> simp


/-! ## The size histogram and the majority selection -/

theorem cntLookup_map_bump (acc : List (ℕ × ℕ)) (x s : ℕ) :
    cntLookup (acc.map (fun p => if p.1 = x then (p.1, p.2 + 1) else p)) s
      = if s = x then (cntLookup acc s).map (· + 1) else cntLookup acc s := by
  induction acc with
  | nil => by_cases h : s = x <;> simp [cntLookup, h]
  | cons p rest ih =>
    obtain ⟨k, c⟩ := p
    rw [List.map_cons]
    by_cases hkx : k = x
    · subst hkx
      rw [show (if (k, c).1 = k then ((k, c).1, (k, c).2 + 1) else (k, c)) = (k, c + 1) by simp]
      by_cases hks : k = s
      · subst hks
        simp [cntLookup]
      · have hsk : ¬ s = k := fun h => hks h.symm
        simp [cntLookup, hks, hsk, ih]
    · rw [show (if (k, c).1 = x then ((k, c).1, (k, c).2 + 1) else (k, c)) = (k, c) by simp [hkx]]
      by_cases hks : k = s
      · subst hks
        simp [cntLookup, hkx]
      · simp [cntLookup, hks, ih]

theorem cntLookup_append_single (acc : List (ℕ × ℕ)) (x s : ℕ) :
    cntLookup (acc ++ [(x, 1)]) s
      = match cntLookup acc s with
        | some c => some c
        | none => if x = s then some 1 else none := by
  induction acc with
  | nil => simp [cntLookup]
  | cons p rest ih =>
    by_cases hps : p.1 = s <;> simp [cntLookup, hps, ih]

theorem any_eq_isSome_cntLookup (acc : List (ℕ × ℕ)) (x : ℕ) :
    acc.any (fun p => p.1 = x) = (cntLookup acc x).isSome := by
  induction acc with
  | nil => simp [cntLookup]
  | cons p rest ih =>
    by_cases hpx : p.1 = x <;> simp [cntLookup, hpx, ih]

theorem cntLookup_counterAdd (acc : List (ℕ × ℕ)) (x s : ℕ) :
    cntLookup (counterAdd acc x) s
      = if s = x then
          (match cntLookup acc x with
           | some c => some (c + 1)
           | none => some 1)
        else cntLookup acc s := by
  unfold counterAdd
  rw [any_eq_isSome_cntLookup]
  rcases hx : cntLookup acc x with _ | c
  · simp only [hx, Option.isSome_none, Bool.false_eq_true, if_false]
    rw [cntLookup_append_single]
    by_cases hsx : s = x
    · subst hsx
      simp [hx]
    · have hxs : ¬ x = s := fun h => hsx h.symm
      rcases hs : cntLookup acc s with _ | c <;> simp [hs, hsx, hxs]
  · simp only [hx, Option.isSome_some, if_true]
    rw [cntLookup_map_bump]
    by_cases hsx : s = x
    · subst hsx
      simp [hx]
    · simp [hsx]

theorem cntLookup_foldl (sizes : List ℕ) : ∀ (acc : List (ℕ × ℕ)) (s : ℕ),
    cntLookup (sizes.foldl counterAdd acc) s
      = match cntLookup acc s with
        | some c => some (c + sizes.count s)
        | none => if s ∈ sizes then some (sizes.count s) else none := by
  induction sizes with
  | nil =>
    intro acc s
    rcases h : cntLookup acc s with _ | c <;> simp [h]
  | cons x rest ih =>
    intro acc s
    simp only [List.foldl_cons]
    rw [ih (counterAdd acc x) s, cntLookup_counterAdd]
    by_cases hsx : s = x
    · subst hsx
      rcases h : cntLookup acc s with _ | c <;>
        simp [h, List.count_cons, List.mem_cons] <;> omega
    · rcases h : cntLookup acc s with _ | c <;>
        simp [h, List.count_cons, List.mem_cons, hsx]

/-- The histogram lookup is exactly the multiplicity. -/
theorem cntLookup_countUp (sizes : List ℕ) (s : ℕ) :
    cntLookup (countUp sizes) s
      = if s ∈ sizes then some (sizes.count s) else none := by
  unfold countUp
  rw [cntLookup_foldl]
  simp [cntLookup]

theorem cntLookup_mem (l : List (ℕ × ℕ)) (hn : (l.map Prod.fst).Nodup) (s c : ℕ) :
    (s, c) ∈ l ↔ cntLookup l s = some c := by
  induction l with
  | nil => simp [cntLookup]
  | cons p rest ih =>
    obtain ⟨k, c'⟩ := p
    simp only [List.map_cons, List.nodup_cons] at hn
    by_cases hks : k = s
    · subst hks
      rw [show cntLookup ((k, c') :: rest) k = some c' by simp [cntLookup]]
      constructor
      · intro h
        rcases List.mem_cons.1 h with heq | hmem
        · cases heq
          rfl
        · exact absurd (List.mem_map_of_mem Prod.fst hmem) hn.1
      · intro h
        cases h
        exact List.mem_cons_self _ _
    · have hsk : ¬ s = k := fun h => hks h.symm
      simp [cntLookup, hks, ih hn.2, Prod.ext_iff, hsk]

theorem counterAdd_keys_nodup (acc : List (ℕ × ℕ)) (x : ℕ)
    (h : (acc.map Prod.fst).Nodup) : ((counterAdd acc x).map Prod.fst).Nodup := by
  unfold counterAdd
  split
  · have heq : (acc.map (fun p => if p.1 = x then (p.1, p.2 + 1) else p)).map Prod.fst
        = acc.map Prod.fst := by
      rw [List.map_map]
      apply List.map_congr_left
      intro p _
      by_cases hp : p.1 = x <;> simp [hp]
    rw [heq]
    exact h
  · next hout =>
    have hx : x ∉ acc.map Prod.fst := by
      intro hmem
      apply hout
      rcases List.mem_map.1 hmem with ⟨p, hp, hfst⟩
      exact List.any_eq_true.2 ⟨p, hp, by simp [hfst]⟩
    rw [List.map_append]
    simp only [List.map_cons, List.map_nil]
    rw [List.nodup_append]
    refine ⟨h, List.nodup_singleton x, fun a ha hax => ?_⟩
    rw [List.mem_singleton] at hax
    exact hx (hax ▸ ha)

theorem countUp_keys_nodup (sizes : List ℕ) : ((countUp sizes).map Prod.fst).Nodup := by
  unfold countUp
  suffices h : ∀ acc : List (ℕ × ℕ), (acc.map Prod.fst).Nodup →
      ((sizes.foldl counterAdd acc).map Prod.fst).Nodup by
    exact h [] (by simp)
  induction sizes with
  | nil => intro acc h; simpa using h
  | cons x rest ih =>
    intro acc h
    exact ih (counterAdd acc x) (counterAdd_keys_nodup acc x h)

theorem counterAdd_ne_nil (acc : List (ℕ × ℕ)) (x : ℕ) : counterAdd acc x ≠ [] := by
  unfold counterAdd
  split
  · next hin =>
    intro h
    rw [List.map_eq_nil_iff] at h
    subst h
    simp at hin
  · simp

theorem countUp_ne_nil (sizes : List ℕ) (h : sizes ≠ []) : countUp sizes ≠ [] := by
  match sizes with
  | [] => exact absurd rfl h
  | x :: rest =>
    show List.foldl counterAdd (counterAdd [] x) rest ≠ []
    have step : ∀ (l : List ℕ) (acc : List (ℕ × ℕ)), acc ≠ [] → l.foldl counterAdd acc ≠ [] := by
      intro l
      induction l with
      | nil => intro acc ha; simpa using ha
      | cons y ys ih => intro acc _; exact ih (counterAdd acc y) (counterAdd_ne_nil acc y)
    exact step rest (counterAdd [] x) (counterAdd_ne_nil [] x)

theorem countLexGe_refl (b : ℕ × ℕ) : countLexGe b b := Or.inr ⟨rfl, le_refl _⟩

theorem countLexGe_trans (a b c : ℕ × ℕ) :
    countLexGe a b → countLexGe b c → countLexGe a c := by
  unfold countLexGe
  omega

theorem bestTupleFold_spec (l : List (ℕ × ℕ)) : ∀ b : ℕ × ℕ,
    ∃ r, bestTupleFold (some b) l = some r ∧ (r = b ∨ r ∈ l) ∧ countLexGe r b ∧
      ∀ t ∈ l, countLexGe r t := by
  induction l with
  | nil => intro b; exact ⟨b, rfl, Or.inl rfl, countLexGe_refl b, by simp⟩
  | cons t rest ih =>
    intro b
    have assemble : ∀ c : ℕ × ℕ, (c = t ∨ c = b) →
        bestTupleFold (some b) (t :: rest) = bestTupleFold (some c) rest →
        countLexGe c b → countLexGe c t →
        ∃ r, bestTupleFold (some b) (t :: rest) = some r ∧ (r = b ∨ r ∈ t :: rest) ∧
          countLexGe r b ∧ ∀ u ∈ t :: rest, countLexGe r u := by
      intro c hcmem hstep hcb hct
      obtain ⟨r, hr, hmem, hge, hall⟩ := ih c
      refine ⟨r, hstep ▸ hr, ?_, countLexGe_trans r c b hge hcb, ?_⟩
      · rcases hmem with rfl | h
        · rcases hcmem with rfl | rfl
          · exact Or.inr (List.mem_cons_self _ _)
          · exact Or.inl rfl
        · exact Or.inr (List.mem_cons_of_mem t h)
      · intro u hu
        rcases List.mem_cons.1 hu with rfl | h
        · exact countLexGe_trans r c u hge hct
        · exact hall u h
    by_cases h1 : t.2 > b.2
    · refine assemble t (Or.inl rfl) ?_ (Or.inl h1) (countLexGe_refl t)
      simp [bestTupleFold, h1]
    · by_cases h2 : t.2 = b.2
      · by_cases h3 : t.1 > b.1
        · refine assemble t (Or.inl rfl) ?_ (Or.inr ⟨h2.symm, le_of_lt h3⟩) (countLexGe_refl t)
          simp [bestTupleFold, h1, h2, h3]
        · refine assemble b (Or.inr rfl) ?_ (countLexGe_refl b) (Or.inr ⟨h2, by omega⟩)
          simp [bestTupleFold, h1, h2, h3]
      · refine assemble b (Or.inr rfl) ?_ (countLexGe_refl b) (Or.inl (by omega))
        simp [bestTupleFold, h1, h2]

theorem bestTupleFold_none_cons (t : ℕ × ℕ) (rest : List (ℕ × ℕ)) :
    bestTupleFold none (t :: rest) = bestTupleFold (some t) rest := by
  simp [bestTupleFold]

/-! ## The extraction loop -/

/-- If every viewpoint extracts to an entry (no early abort, no exception),
the loop returns exactly the per-viewpoint entries, in order. -/
theorem collect_inputs_of_good (apexPow : ℚ → ℚ) (vps : List Viewpoint)
    (h : ∀ v ∈ vps, ∃ e, extractOne apexPow v = some (.entry e)) :
    collect apexPow vps = some (.inputs (vps.map (extractEntry apexPow))) := by
  induction vps with
  | nil => simp [collect]
  | cons v rest ih =>
    obtain ⟨e, he⟩ := h v (List.mem_cons_self _ _)
    have hrest := ih (fun u hu => h u (List.mem_cons_of_mem v hu))
    have hv : extractEntry apexPow v = e := by
      unfold extractEntry
      rw [he]
    simp [collect, he, hrest, hv]

/-- An early return can only come from a viewpoint with missing metadata
(code 0) or a falsy f-number and shutter speed (code 1). -/
theorem collect_done_source (apexPow : ℚ → ℚ) (vps : List Viewpoint) : ∀ nb : ℕ,
    collect apexPow vps = some (.done nb) →
    ∃ v ∈ vps, ∀ e, extractOne apexPow v ≠ some (.entry e) := by
  induction vps with
  | nil => intro nb h; simp [collect] at h
  | cons v rest ih =>
    intro nb h
    rcases hv : extractOne apexPow v with _ | ev
    · simp [collect, hv] at h
    · match ev with
      | .abort m =>
        exact ⟨v, List.mem_cons_self _ _, by simp [hv]⟩
      | .entry e =>
        rcases hr : collect apexPow rest with _ | cr
        · simp [collect, hv, hr] at h
        · match cr with
          | .done m =>
            obtain ⟨u, hu, hne⟩ := ih m hr
            exact ⟨u, List.mem_cons_of_mem v hu, hne⟩
          | .inputs l => simp [collect, hv, hr] at h

/-! ## Resolved metadata values come from the record -/

theorem dictGet_mem {α : Type} (d : List (PStr × α)) (k : PStr) (v : α)
    (h : dictGet d k = some v) : ∃ key, (key, v) ∈ d := by
  induction d with
  | nil => simp [dictGet] at h
  | cons p rest ih =>
    obtain ⟨dk, dv⟩ := p
    by_cases hk : dk = k
    · rw [show dictGet ((dk, dv) :: rest) k = some dv by simp [dictGet, hk]] at h
      cases h
      exact ⟨dk, List.mem_cons_self _ _⟩
    · rw [show dictGet ((dk, dv) :: rest) k = dictGet rest k by simp [dictGet, hk]] at h
      obtain ⟨key, hkey⟩ := ih h
      exact ⟨key, List.mem_cons_of_mem _ hkey⟩

theorem scanRecord_mem {α : Type} (d : List (PStr × α)) (key : PStr) (v : α)
    (h : scanRecord d key = some v) : ∃ k, (k, v) ∈ d := by
  induction d with
  | nil => simp [scanRecord] at h
  | cons p rest ih =>
    obtain ⟨dk, dv⟩ := p
    simp only [scanRecord] at h
    split at h
    · cases h
      exact ⟨dk, List.mem_cons_self _ _⟩
    · split at h
      · cases h
        exact ⟨dk, List.mem_cons_self _ _⟩
      · obtain ⟨k, hk⟩ := ih h
        exact ⟨k, List.mem_cons_of_mem _ hk⟩

/-- `findMetadata` returns the untouched default or one of the record's
values. -/
theorem findMetadata_mem {α : Type} (d : List (PStr × α)) (keys : List PStr) (dflt : α) :
    findMetadata d keys dflt = dflt ∨ ∃ k, (k, findMetadata d keys dflt) ∈ d := by
  induction keys with
  | nil => exact Or.inl rfl
  | cons key rest ih =>
    simp only [findMetadata]
    rcases hg : dictGet d key with _ | v
    · rcases hs : scanRecord d key with _ | v
      · exact ih
      · exact Or.inr (scanRecord_mem d key v hs)
    · exact Or.inr (dictGet_mem d key v hg)

theorem findMetadata_num (d : List (PStr × MetaValue)) (keys : List PStr) (q0 : ℚ)
    (hd : ∀ kv ∈ d, ∃ q : ℚ, kv.2 = MetaValue.num q) :
    ∃ q, findMetadata d keys (.num q0) = .num q := by
  rcases findMetadata_mem d keys (.num q0) with h | ⟨k, hk⟩
  · exact ⟨q0, h⟩
  · exact hd (k, findMetadata d keys (.num q0)) hk

theorem getFnumber_num (apexPow : ℚ → ℚ) (d : List (PStr × MetaValue))
    (hd : ∀ kv ∈ d, ∃ q : ℚ, kv.2 = MetaValue.num q) :
    ∃ q : ℚ, getFnumber apexPow d = some (.num q) := by
  rcases findMetadata_mem d ["FNumber".toList] (MetaValue.str []) with h | ⟨k, hk⟩
  · rcases findMetadata_mem d
      ["Exif:ApertureValue".toList, "ApertureValue".toList, "Aperture".toList]
      (MetaValue.str []) with h2 | ⟨k2, hk2⟩
    · refine ⟨-1, ?_⟩
      simp only [getFnumber]
      rw [h, h2]
      simp
    · obtain ⟨q, hq⟩ := hd _ hk2
      have hq' : findMetadata d
          ["Exif:ApertureValue".toList, "ApertureValue".toList, "Aperture".toList]
          (MetaValue.str []) = MetaValue.num q := hq
      refine ⟨apexPow q, ?_⟩
      simp only [getFnumber]
      rw [h, hq']
      simp
  · obtain ⟨q, hq⟩ := hd _ hk
    have hq' : findMetadata d ["FNumber".toList] (MetaValue.str []) = MetaValue.num q := hq
    refine ⟨q, ?_⟩
    simp only [getFnumber]
    rw [hq']
    simp

theorem extractOne_numeric_isSome (apexPow : ℚ → ℚ) (v : Viewpoint)
    (h : numericOnly v) : (extractOne apexPow v).isSome := by
  rcases hm : v.metadata with _ | d
  · simp [extractOne, hm]
  · have hd := h d hm
    obtain ⟨qf, hf⟩ := getFnumber_num apexPow d hd
    obtain ⟨qs, hs⟩ := findMetadata_num d
      ["ExposureTime".toList, "Exif:ShutterSpeedValue".toList,
       "ShutterSpeedValue".toList, "ShutterSpeed".toList] (-1) hd
    obtain ⟨qi, hi⟩ := findMetadata_num d
      ["Exif:PhotographicSensitivity".toList, "PhotographicSensitivity".toList,
       "Photographic Sensitivity".toList, "ISO".toList] (-1) hd
    simp only [extractOne, hm, hf, hs, hi, Option.pure_def, Option.bind_eq_bind,
      Option.some_bind]
    split
    · simp
    · simp [pyFloat, Option.pure_def, Option.bind_eq_bind, Option.some_bind]

/-- When every metadata value is numeric, the whole extraction loop returns a
value (never raises). -/
theorem collect_numeric_isSome (apexPow : ℚ → ℚ) (vps : List Viewpoint)
    (h : ∀ v ∈ vps, numericOnly v) : (collect apexPow vps).isSome := by
  induction vps with
  | nil => simp [collect]
  | cons v rest ih =>
    have hv := extractOne_numeric_isSome apexPow v (h v (List.mem_cons_self _ _))
    have hrest := ih (fun u hu => h u (List.mem_cons_of_mem v hu))
    rcases he : extractOne apexPow v with _ | ev
    · rw [he] at hv
      simp at hv
    · match ev with
      | .abort nb => simp [collect, he]
      | .entry e =>
        rcases hr : collect apexPow rest with _ | cr
        · rw [hr] at hrest
          simp at hrest
        · match cr with
          | .done nb => simp [collect, he, hr]
          | .inputs l => simp [collect, he, hr]

/-! ## The exposure value: rational and real versions agree -/

theorem sq_div_sqrt (L F r : ℝ) (hr : 0 ≤ r) :
    (L / (F * Real.sqrt r)) * (L / (F * Real.sqrt r)) = (L * L) / (F * F * r) := by
  rw [div_mul_div_comm]
  congr 1
  rw [mul_mul_mul_comm, Real.mul_self_sqrt hr]

theorem sq_div_one (L F : ℝ) : (L / (F * 1)) * (L / (F * 1)) = (L * L) / (F * F * 1) := by
  rw [div_mul_div_comm]
  ring_nf

/-- The executable rational `getExposureQ` agrees exactly with the literal
real-valued embedding of the source (square root and all): eliminating the
square root through the square is an identity of real numbers. -/
theorem getExposureQ_eq_real (exp : Triple) (refIso refFnumber : ℚ) :
    ((LdrToHdrCalibration.getExposureQ exp refIso refFnumber : ℚ) : ℝ)
      = LdrToHdrCalibration.getExposure ((exp.1 : ℝ), (exp.2.1 : ℝ), (exp.2.2 : ℝ))
          (refIso : ℝ) (refFnumber : ℝ) := by
  obtain ⟨f, s, i⟩ := exp
  have c1 : (0 : ℝ) < (s : ℝ) ↔ 0 < s := Rat.cast_pos
  have c2 : (0 : ℝ) < (f : ℝ) ↔ 0 < f := Rat.cast_pos
  have c3 : (0 : ℝ) < (refFnumber : ℝ) ↔ 0 < refFnumber := Rat.cast_pos
  have c4 : ((1 : ℝ)/1000000 < (i : ℝ)) ↔ ((1 : ℚ)/1000000 < i) := by
    rw [show ((1 : ℝ)/1000000) = (((1 : ℚ)/1000000 : ℚ) : ℝ) by norm_num]
    exact Rat.cast_lt
  have c5 : ((1 : ℝ)/1000000 < (refIso : ℝ)) ↔ ((1 : ℚ)/1000000 < refIso) := by
    rw [show ((1 : ℝ)/1000000) = (((1 : ℚ)/1000000 : ℚ) : ℝ) by norm_num]
    exact Rat.cast_lt
  simp only [LdrToHdrCalibration.getExposureQ, LdrToHdrCalibration.getExposure,
    gt_iff_lt, c1, c2, c3, c4, c5]
  split_ifs with h1 h2 h3 h4 h5 h6 h7 h8 h9 h10 h11 h12 h13 h14 h15 h16 <;>
    push_cast <;>
    try norm_num
  all_goals try left
  all_goals rw [div_mul_div_comm]
  all_goals (
    have hiso := ‹(1 : ℚ)/1000000 < i ∧ (1 : ℚ)/1000000 < refIso›
    have hnn : (0 : ℝ) ≤ (i : ℝ) / (refIso : ℝ) :=
      div_nonneg
        (by exact_mod_cast le_of_lt (lt_trans (by norm_num) hiso.1))
        (by exact_mod_cast le_of_lt (lt_trans (by norm_num) hiso.2))
    rw [mul_mul_mul_comm, Real.mul_self_sqrt hnn])
  all_goals norm_num

theorem mul_self_ne_neg_one (a x : ℝ) (ha : 0 < a) : a * (x * x) ≠ -1 := by
  nlinarith [mul_self_nonneg x]

/-- The source's `getExposure` satisfies the spec's contract with the amended
reference fallback (the image's substituted, unscaled aperture). -/
theorem getExposure_eq_specAmended (exp : ℝ × ℝ × ℝ) (refIso refFnumber : ℝ) :
    LdrToHdrCalibration.getExposure exp refIso refFnumber
      = getExposureSpecAmended exp refIso refFnumber := by
  obtain ⟨f, s, i⟩ := exp
  simp only [LdrToHdrCalibration.getExposure, getExposureSpecAmended, gt_iff_lt]
  by_cases hs : 0 < s <;> by_cases hf : 0 < f <;> by_cases hrf : 0 < refFnumber <;>
    simp only [hs, hf, hrf, not_true_eq_false, not_false_eq_true, true_and, and_true,
      false_and, and_false, if_true, if_false] <;>
    split_ifs <;>
    ring

/-- The sentinel `-1.0` is returned exactly when neither the shutter speed nor
the f-number is positive. -/
theorem getExposure_eq_neg_one_iff (exp : ℝ × ℝ × ℝ) (refIso refFnumber : ℝ) :
    LdrToHdrCalibration.getExposure exp refIso refFnumber = -1 ↔
      ¬ exp.2.1 > 0 ∧ ¬ exp.1 > 0 := by
  obtain ⟨f, s, i⟩ := exp
  simp only [LdrToHdrCalibration.getExposure, gt_iff_lt]
  by_cases hs : 0 < s <;> by_cases hf : 0 < f <;>
    simp only [hs, hf, not_true_eq_false, not_false_eq_true, true_and, and_true,
      false_and, and_false, if_true, if_false, iff_true, iff_false]
  · exact mul_self_ne_neg_one _ _ hs
  · exact mul_self_ne_neg_one _ _ hs
  · exact mul_self_ne_neg_one _ _ (by norm_num)

/-! ## Tolerant key matching: normal forms -/

/-- On a single-entry record, `findMetadata` tries the aliases one by one and
returns the value exactly on the first hit. -/
theorem findMetadata_single_cons {α : Type} (k : PStr) (v dflt : α) (a : PStr)
    (rest : List PStr) :
    findMetadata [(k, v)] (a :: rest) dflt
      = if aliasHits a k then v else findMetadata [(k, v)] rest dflt := by
  simp only [findMetadata, dictGet, scanRecord, aliasHits]
  by_cases h1 : k = a
  · simp [h1]
  · by_cases h2 : stripSpaces (pyLower k) = pyLower a
    · simp [h1, h2]
    · by_cases h3 : lastSeg '/' (lastSeg ':' (stripSpaces (pyLower k))) = pyLower a
      · simp [h1, h2, h3]
      · simp [h1, h2, h3]

/-- If an alias is already space-free and namespace-free (fixed by the
normalisers), a hit against `k1` transfers to any `k2` with the same fully
normalised key. -/
theorem aliasHits_transfer (a k1 k2 : PStr)
    (hnorm : lastSeg '/' (lastSeg ':' (stripSpaces (pyLower k1)))
           = lastSeg '/' (lastSeg ':' (stripSpaces (pyLower k2))))
    (hsp : stripSpaces (pyLower a) = pyLower a)
    (hns : lastSeg '/' (lastSeg ':' (pyLower a)) = pyLower a) :
    aliasHits a k1 → aliasHits a k2 := by
  rintro (h | h | h)
  · right; right
    calc lastSeg '/' (lastSeg ':' (stripSpaces (pyLower k2)))
        = lastSeg '/' (lastSeg ':' (stripSpaces (pyLower a))) := by rw [← hnorm, h]
      _ = lastSeg '/' (lastSeg ':' (pyLower a)) := by rw [hsp]
      _ = pyLower a := hns
  · right; right
    calc lastSeg '/' (lastSeg ':' (stripSpaces (pyLower k2)))
        = lastSeg '/' (lastSeg ':' (stripSpaces (pyLower k1))) := hnorm.symm
      _ = lastSeg '/' (lastSeg ':' (pyLower a)) := by rw [h]
      _ = pyLower a := hns
  · right; right
    rw [← hnorm]
    exact h

/-- A hit by an alias transfers to any alias with the same lower-case form,
provided the first alias is space-free. -/
theorem aliasHits_lower_inv (a1 a2 k : PStr)
    (hl : pyLower a1 = pyLower a2)
    (hsp1 : stripSpaces (pyLower a1) = pyLower a1) :
    aliasHits a1 k → aliasHits a2 k := by
  rintro (h | h | h)
  · right; left
    rw [h, hsp1, hl]
  · right; left
    rw [h, hl]
  · right; right
    rw [h, hl]

/-- With two or more groups, `selectFromGroups` returns a group size of
maximal occurrence count, breaking count ties towards the larger size. -/
theorem selectFromGroups_spec (groups : List (List Triple)) (hlen : 2 ≤ groups.length) :
    selectFromGroups groups ∈ groups.map List.length ∧
      ∀ s ∈ groups.map List.length,
        (groups.map List.length).count s
            < (groups.map List.length).count (selectFromGroups groups) ∨
          ((groups.map List.length).count s
              = (groups.map List.length).count (selectFromGroups groups) ∧
            s ≤ selectFromGroups groups) := by
  have hgne : groups ≠ [] := by
    intro h
    rw [h] at hlen
    simp at hlen
  have hne : groups.map List.length ≠ [] := by
    simpa using hgne
  have hcne : countUp (groups.map List.length) ≠ [] := countUp_ne_nil _ hne
  have hmperm : (mostCommon (countUp (groups.map List.length))).Perm
      (countUp (groups.map List.length)) := sortBy_perm _ _
  have hmcne : mostCommon (countUp (groups.map List.length)) ≠ [] := by
    intro h
    rw [h] at hmperm
    exact hcne hmperm.symm.eq_nil
  obtain ⟨t, ts, ht⟩ := List.exists_cons_of_ne_nil hmcne
  have hsel : selectFromGroups groups
      = ((bestTupleFold none (mostCommon (countUp (groups.map List.length)))).getD (0, 0)).1 := by
    unfold selectFromGroups
    rw [if_neg (by omega : ¬ groups.length = 1),
      if_neg (fun h => hcne (List.length_eq_zero.1 h))]
  obtain ⟨r, hr, hmem, hge, hall⟩ := bestTupleFold_spec ts t
  have hsel2 : selectFromGroups groups = r.1 := by
    rw [hsel, ht, bestTupleFold_none_cons, hr]
    rfl
  have hrmem : r ∈ countUp (groups.map List.length) := by
    apply hmperm.mem_iff.1
    rw [ht]
    rcases hmem with rfl | h
    · exact List.mem_cons_self _ _
    · exact List.mem_cons_of_mem _ h
  have hrlook : cntLookup (countUp (groups.map List.length)) r.1 = some r.2 :=
    (cntLookup_mem (countUp (groups.map List.length)) (countUp_keys_nodup _) r.1 r.2).1
      (by simpa using hrmem)
  rw [cntLookup_countUp] at hrlook
  by_cases hrin : r.1 ∈ groups.map List.length
  case neg => simp [hrin] at hrlook
  rw [if_pos hrin] at hrlook
  have hrcount : r.2 = (groups.map List.length).count r.1 :=
    (Option.some.inj hrlook).symm
  constructor
  · rw [hsel2]
    exact hrin
  · intro s hs
    have hslook : cntLookup (countUp (groups.map List.length)) s
        = some ((groups.map List.length).count s) := by
      rw [cntLookup_countUp, if_pos hs]
    have hsmem : (s, (groups.map List.length).count s) ∈ countUp (groups.map List.length) :=
      (cntLookup_mem _ (countUp_keys_nodup _) s _).2 hslook
    have hsmem2 : (s, (groups.map List.length).count s) ∈ t :: ts := by
      rw [← ht]
      exact hmperm.mem_iff.2 hsmem
    have hdom : countLexGe r (s, (groups.map List.length).count s) := by
      rcases List.mem_cons.1 hsmem2 with heq | hmem2
      · rw [← heq] at hge
        exact hge
      · exact hall _ hmem2
    rcases hdom with hlt | ⟨heq, hle⟩
    · left
      rw [hsel2, ← hrcount]
      exact hlt
    · right
      rw [hsel2, ← hrcount]
      exact ⟨heq.symm ▸ rfl, hle⟩

/-- The computed bracket count is a function of the multiset of entries. -/
theorem computeNbBrackets_eq_of_perm {l1 l2 : List Entry} (h : l1.Perm l2) :
    computeNbBrackets l1 = computeNbBrackets l2 := by
  unfold computeNbBrackets exposureGroupsOf
  rw [sortInputs_eq_of_perm h]

/-! ## The claims -/

/-- C1, counterexample: two input lists carrying the same multiset of exposure
triples on different paths.  Sorting is by the `(path, triple)` tuple with the
path as the *primary* key, so the triples reach the grouping walk in different
orders: the claim that the sorted order of triples is determined by the triples
alone is false. -/
theorem sort_ignores_path_counterexample :
    (List.map Prod.snd
        [(("a".toList : PStr), ((2 : ℚ), (1 : ℚ), (100 : ℚ))), ("b".toList, (1, 1, 100))]).Perm
      (List.map Prod.snd
        [(("a".toList : PStr), ((1 : ℚ), (1 : ℚ), (100 : ℚ))), ("b".toList, (2, 1, 100))]) ∧
    (sortInputs [(("a".toList : PStr), ((2 : ℚ), (1 : ℚ), (100 : ℚ))), ("b".toList, (1, 1, 100))]).map Prod.snd
      ≠ (sortInputs [(("a".toList : PStr), ((1 : ℚ), (1 : ℚ), (100 : ℚ))), ("b".toList, (2, 1, 100))]).map Prod.snd := by
  constructor
  · decide
  · decide

/-- C1 (amended): `inputs.sort()` sorts ascending by the whole
`(path, (aperture, shutter, sensitivity))` tuple — the path is the primary
key — and the sorted sequence is determined by the multiset of those pairs:
any two permutations of the same entries sort identically. -/
theorem sort_determined_by_pair_multiset (l1 l2 : List Entry) (h : l1.Perm l2) :
    sortInputs l1 = sortInputs l2 ∧
      List.Sorted (fun a b => entryLe a b = true) (sortInputs l1) :=
  ⟨sortInputs_eq_of_perm h, sortBy_sorted entryLe entryLe_total entryLe_trans l1⟩

theorem sort_determined_by_pair_multiset_witness :
    sortInputs [(("a".toList : PStr), ((2 : ℚ), (1 : ℚ), (100 : ℚ))), ("b".toList, (1, 1, 100))]
        = sortInputs [(("b".toList : PStr), ((1 : ℚ), (1 : ℚ), (100 : ℚ))), ("a".toList, (2, 1, 100))] ∧
      List.Sorted (fun a b => entryLe a b = true)
        (sortInputs [(("a".toList : PStr), ((2 : ℚ), (1 : ℚ), (100 : ℚ))), ("b".toList, (1, 1, 100))]) :=
  sort_determined_by_pair_multiset _ _ (by decide)

unseal Rat.mul Rat.inv in
/-- C2, code bug: an image that resolves neither its aperture nor its shutter
speed receives the sentinel `-1.0` in both fields, but `-1.0` is truthy in
Python, so the guard `not fnumber and not shutterSpeed` (source line 234) never
fires for it.  Here one such image together with one normal image yields
`nbBrackets = 2`; the claim (and the source's own comment on lines 235-236)
require the abort with `nbBrackets = 1`. -/
theorem missing_exposure_truthiness_bug :
    LdrToHdrCalibration.update apexPow0 0 [vpMissingExposure, vpGoodExposure]
      = some (2, true) := by
  decide

/-- C3, counterexample: at `exp = (2, 1, 400)` with `refIso = 100` and an
invalid reference aperture `refFnumber = -1`, the source computes `1/4` —
`lRefFnumber` is the *unscaled* aperture 2 while the effective aperture is the
sensitivity-scaled 4 — whereas the claim's formula (reference fallback to the
sensitivity-scaled aperture, `getExposureSpecClaim`) yields `1`. -/
theorem getExposure_reference_fallback_counterexample :
    LdrToHdrCalibration.getExposure (2, 1, 400) 100 (-1) = 1/4 ∧
      getExposureSpecClaim (2, 1, 400) 100 (-1) = 1 := by
  have h4 : Real.sqrt (4 : ℝ) = 2 := by
    rw [show (4 : ℝ) = 2^2 by norm_num]
    exact Real.sqrt_sq (by norm_num)
  constructor
  · simp only [LdrToHdrCalibration.getExposure]
    norm_num [h4]
  · simp only [getExposureSpecClaim]
    norm_num [h4]

/-- C3 (amended): `getExposure` equals the spec's formula in which
`effectiveReferenceAperture`, when the reference aperture is invalid, falls
back to the image's own substituted aperture *before* sensitivity scaling
(`getExposureSpecAmended`); and it returns `-1.0` exactly when neither the
shutter speed nor the aperture is positive. -/
theorem getExposure_spec_contract (exp : ℝ × ℝ × ℝ) (refIso refFnumber : ℝ) :
    LdrToHdrCalibration.getExposure exp refIso refFnumber
        = getExposureSpecAmended exp refIso refFnumber ∧
      (LdrToHdrCalibration.getExposure exp refIso refFnumber = -1 ↔
        ¬ exp.2.1 > 0 ∧ ¬ exp.1 > 0) :=
  ⟨getExposure_eq_specAmended exp refIso refFnumber,
    getExposure_eq_neg_one_iff exp refIso refFnumber⟩

/-- C4: on any non-empty entry list the grouping walk partitions the input:
every produced group is non-empty, and the concatenation of the groups is a
permutation of the input's exposure triples (each triple occurring exactly as
often as in the input). -/
theorem walk_partition (l : List Entry) (hl : l ≠ []) :
    (∀ g ∈ exposureGroupsOf l, g ≠ []) ∧
      ((exposureGroupsOf l).flatten).Perm (l.map Prod.snd) := by
  constructor
  · apply walkGroups_ne
    intro h
    have hlen := (sortBy_perm entryLe l).length_eq
    rw [show sortInputs l = sortBy entryLe l from rfl] at h
    rw [h] at hlen
    exact hl (List.length_eq_zero.1 hlen.symm)
  · rw [exposureGroupsOf, walkGroups_flatten]
    exact (sortBy_perm entryLe l).map Prod.snd

unseal Rat.mul Rat.inv in
theorem walk_partition_witness :
    (∀ g ∈ exposureGroupsOf mixedEntries, g ≠ []) ∧
      ((exposureGroupsOf mixedEntries).flatten).Perm (mixedEntries.map Prod.snd) :=
  walk_partition mixedEntries (by decide)

/-- C5: whenever the walk yields two or more groups, `update` reports the
group size with the highest occurrence count in the size histogram, and among
sizes of equal count the larger size; the witness instantiates the histogram
`{3: 2, 5: 2}`, which yields 5. -/
theorem selector_majority_tiebreak (l : List Entry)
    (h2 : 2 ≤ (exposureGroupsOf l).length) :
    computeNbBrackets l ∈ (exposureGroupsOf l).map List.length ∧
      ∀ s ∈ (exposureGroupsOf l).map List.length,
        ((exposureGroupsOf l).map List.length).count s
            < ((exposureGroupsOf l).map List.length).count (computeNbBrackets l) ∨
          (((exposureGroupsOf l).map List.length).count s
              = ((exposureGroupsOf l).map List.length).count (computeNbBrackets l) ∧
            s ≤ computeNbBrackets l) :=
  selectFromGroups_spec (exposureGroupsOf l) h2

unseal Rat.mul Rat.inv in
theorem selector_majority_tiebreak_witness :
    (2 ≤ (exposureGroupsOf histEntries).length) ∧
      (computeNbBrackets histEntries ∈ (exposureGroupsOf histEntries).map List.length ∧
        ∀ s ∈ (exposureGroupsOf histEntries).map List.length,
          ((exposureGroupsOf histEntries).map List.length).count s
              < ((exposureGroupsOf histEntries).map List.length).count (computeNbBrackets histEntries) ∨
            (((exposureGroupsOf histEntries).map List.length).count s
                = ((exposureGroupsOf histEntries).map List.length).count (computeNbBrackets histEntries) ∧
              s ≤ computeNbBrackets histEntries)) ∧
      (exposureGroupsOf histEntries).map List.length = [3, 3, 5, 5] ∧
      computeNbBrackets histEntries = 5 :=
  ⟨by decide, selector_majority_tiebreak histEntries (by decide), by decide, by decide⟩

/-- C6: a nonzero user-forced bracket count is reported as-is, with the
validity flag true exactly when it divides the number of viewpoints; the
grouping never runs — the result depends on the viewpoints only through their
number (two viewpoint lists of equal length give identical results, whatever
their metadata). -/
theorem user_override_bypasses_grouping (apexPow : ℚ → ℚ) (user : ℕ)
    (vps1 vps2 : List Viewpoint) (hu : user ≠ 0) (hlen : vps1.length = vps2.length) :
    LdrToHdrCalibration.update apexPow user vps1
        = LdrToHdrCalibration.update apexPow user vps2 ∧
      LdrToHdrCalibration.update apexPow user vps1
        = some (user, decide (vps1.length % user = 0)) := by
  unfold LdrToHdrCalibration.update
  rw [if_pos hu, if_pos hu, hlen]
  exact ⟨rfl, rfl⟩

theorem user_override_bypasses_grouping_witness :
    (LdrToHdrCalibration.update apexPow0 4 (List.replicate 10 vpNoMetadata)
        = LdrToHdrCalibration.update apexPow0 4 (List.replicate 10 vpGoodExposure) ∧
      LdrToHdrCalibration.update apexPow0 4 (List.replicate 10 vpNoMetadata)
        = some (4, decide ((List.replicate 10 vpNoMetadata).length % 4 = 0))) :=
  user_override_bypasses_grouping apexPow0 4 _ _ (by decide) (by decide)

/-- C7, counterexample: the record keys `"FNumber"` and `"F Number"` differ
only by whitespace, yet with the alias list `["F Number"]` the first record
yields the default and the second the stored value: record keys are
space-stripped during matching but aliases are not, so the claimed invariance
fails. -/
theorem findMetadata_whitespace_counterexample :
    findMetadata [("FNumber".toList, (7 : ℚ))] ["F Number".toList] 0 = 0 ∧
      findMetadata [("F Number".toList, (7 : ℚ))] ["F Number".toList] 0 = 7 := by
  constructor
  · decide
  · decide

/-- C7 (amended): the invariance holds for the normal forms the code actually
uses.  (a) Two single-entry records whose keys agree after lower-casing,
space-stripping and namespace-stripping are interchangeable for every alias
list whose aliases are themselves space-free and namespace-free (fixed points
of the normalisers).  (b) Against a single-entry record, two space-free
aliases with the same lower-case form resolve identically. -/
theorem findMetadata_normalized_invariance :
    (∀ (k1 k2 : PStr) (v dflt : ℚ) (aliases : List PStr),
      lastSeg '/' (lastSeg ':' (stripSpaces (pyLower k1)))
          = lastSeg '/' (lastSeg ':' (stripSpaces (pyLower k2))) →
      (∀ a ∈ aliases, stripSpaces (pyLower a) = pyLower a ∧
          lastSeg '/' (lastSeg ':' (pyLower a)) = pyLower a) →
      findMetadata [(k1, v)] aliases dflt = findMetadata [(k2, v)] aliases dflt) ∧
    (∀ (k a1 a2 : PStr) (v dflt : ℚ),
      pyLower a1 = pyLower a2 →
      stripSpaces (pyLower a1) = pyLower a1 →
      stripSpaces (pyLower a2) = pyLower a2 →
      findMetadata [(k, v)] [a1] dflt = findMetadata [(k, v)] [a2] dflt) := by
  constructor
  · intro k1 k2 v dflt aliases hnorm hal
    induction aliases with
    | nil => rfl
    | cons a rest ih =>
      rw [findMetadata_single_cons, findMetadata_single_cons]
      have ha := hal a (List.mem_cons_self _ _)
      have ihrest := ih (fun b hb => hal b (List.mem_cons_of_mem a hb))
      by_cases hh : aliasHits a k1
      · rw [if_pos hh, if_pos (aliasHits_transfer a k1 k2 hnorm ha.1 ha.2 hh)]
      · rw [if_neg hh,
          if_neg (fun h => hh (aliasHits_transfer a k2 k1 hnorm.symm ha.1 ha.2 h)),
          ihrest]
  · intro k a1 a2 v dflt hl hsp1 hsp2
    rw [findMetadata_single_cons, findMetadata_single_cons]
    by_cases hh : aliasHits a1 k
    · rw [if_pos hh, if_pos (aliasHits_lower_inv a1 a2 k hl hsp1 hh)]
    · rw [if_neg hh, if_neg (fun h => hh (aliasHits_lower_inv a2 a1 k hl.symm hsp2 h))]

theorem findMetadata_normalized_invariance_witness :
    findMetadata [("Exif:FNumber".toList, (7 : ℚ))] ["fnumber".toList] 0
        = findMetadata [("FNumber".toList, (7 : ℚ))] ["fnumber".toList] 0 ∧
      findMetadata [("FNumber".toList, (7 : ℚ))] ["FNumber".toList] 0
        = findMetadata [("FNumber".toList, (7 : ℚ))] ["fnumber".toList] 0 :=
  ⟨findMetadata_normalized_invariance.1 _ _ _ _ _ (by decide) (by decide),
    findMetadata_normalized_invariance.2 _ _ _ _ _ (by decide) (by decide) (by decide)⟩

unseal Rat.mul Rat.inv in
/-- C8, counterexample: the early returns are taken in list order, so the
computation is *not* invariant under permutation: a metadata-less viewpoint
(early return 0) and a falsy-exposure viewpoint (early return 1) produce 0 or
1 depending on which comes first. -/
theorem update_order_dependent_counterexample :
    ([vpNoMetadata, vpFalsyExposure].Perm [vpFalsyExposure, vpNoMetadata]) ∧
      LdrToHdrCalibration.update apexPow0 0 [vpNoMetadata, vpFalsyExposure]
        = some (0, true) ∧
      LdrToHdrCalibration.update apexPow0 0 [vpFalsyExposure, vpNoMetadata]
        = some (1, true) := by
  refine ⟨?_, ?_, ?_⟩
  · decide
  · decide
  · decide

/-- C8 (amended): the bracket count is a pure function, and on inputs where no
viewpoint triggers an early abort or an exception — every viewpoint extracts
to an entry — it is also invariant under permutation of the viewpoint list
(the sort canonicalises the order).  When an aborting viewpoint is present,
different orders may report 0 versus 1, as the counterexample shows. -/
theorem update_perm_invariant (apexPow : ℚ → ℚ) (user : ℕ)
    (vps1 vps2 : List Viewpoint) (hperm : vps1.Perm vps2)
    (hgood : ∀ v ∈ vps1, ∃ e, extractOne apexPow v = some (.entry e)) :
    LdrToHdrCalibration.update apexPow user vps1
      = LdrToHdrCalibration.update apexPow user vps2 := by
  unfold LdrToHdrCalibration.update
  by_cases hu : user ≠ 0
  · rw [if_pos hu, if_pos hu, hperm.length_eq]
  · rw [if_neg hu, if_neg hu]
    have hgood2 : ∀ v ∈ vps2, ∃ e, extractOne apexPow v = some (.entry e) :=
      fun v hv => hgood v (hperm.mem_iff.2 hv)
    rw [collect_inputs_of_good apexPow vps1 hgood,
      collect_inputs_of_good apexPow vps2 hgood2]
    have hmap : (vps1.map (extractEntry apexPow)).Perm (vps2.map (extractEntry apexPow)) :=
      hperm.map _
    simp only [computeNbBrackets_eq_of_perm hmap]

unseal Rat.mul Rat.inv in
theorem update_perm_invariant_witness :
    LdrToHdrCalibration.update apexPow0 0 [vpGoodExposure, vpMissingExposure]
      = LdrToHdrCalibration.update apexPow0 0 [vpMissingExposure, vpGoodExposure] :=
  update_perm_invariant apexPow0 0 _ _ (by decide)
    (by
      intro v hv
      simp only [List.mem_cons, List.not_mem_nil, or_false] at hv
      rcases hv with rfl | rfl
      · exact ⟨(("a/y.jpg".toList : PStr), ((1 : ℚ), (2 : ℚ), (100 : ℚ))), by decide⟩
      · exact ⟨(("a/x.jpg".toList : PStr), ((-1 : ℚ), (-1 : ℚ), (100 : ℚ))), by decide⟩)

/-- C9, counterexample: the detection can raise.  A metadata record whose
aperture value is the string `"f4"` reaches `pow(2.0, aperture / 2.0)` and
Python raises `TypeError` (modelled by `none`): errors are not always surfaced
as data. -/
theorem update_string_metadata_raises :
    LdrToHdrCalibration.update apexPow0 0 [vpStringAperture] = none := by
  decide

/-- C9 (amended): when every metadata value is numeric the computation never
raises: every error condition is surfaced as the data values 0 or 1 and the
validity flag.  Exceptions require a string metadata value reaching an
arithmetic or float conversion. -/
theorem update_numeric_never_raises (apexPow : ℚ → ℚ) (user : ℕ)
    (vps : List Viewpoint) (h : ∀ v ∈ vps, numericOnly v) :
    ∃ r, LdrToHdrCalibration.update apexPow user vps = some r := by
  unfold LdrToHdrCalibration.update
  by_cases hu : user ≠ 0
  · rw [if_pos hu]
    exact ⟨_, rfl⟩
  · rw [if_neg hu]
    have hsome := collect_numeric_isSome apexPow vps h
    rcases hc : collect apexPow vps with _ | cr
    · rw [hc] at hsome
      simp at hsome
    · match cr with
      | .done nb => exact ⟨_, rfl⟩
      | .inputs l => exact ⟨_, rfl⟩

theorem update_numeric_never_raises_witness :
    (∀ v ∈ [vpGoodExposure, vpMissingExposure], numericOnly v) ∧
      ∃ r, LdrToHdrCalibration.update apexPow0 0 [vpGoodExposure, vpMissingExposure] = some r := by
  have hnum : ∀ v ∈ [vpGoodExposure, vpMissingExposure], numericOnly v := by
    intro v hv
    simp only [List.mem_cons, List.not_mem_nil, or_false] at hv
    rcases hv with rfl | rfl <;>
      (intro d hd kv hkv
       cases hd
       simp only [List.mem_cons, List.not_mem_nil, or_false] at hkv
       rcases hkv with rfl | rfl | rfl | rfl <;> exact ⟨_, rfl⟩)
  exact ⟨hnum, update_numeric_never_raises apexPow0 0 _ hnum⟩

/-- C10: when the walk yields exactly one group whose triples are neither all
identical nor all distinct (two distinct values exist and some value repeats),
`update` reports the full group size — the total number of images — exactly as
in the all-distinct case; the histogram selector is not involved in the
single-group branch. -/
theorem single_mixed_group_count (l : List Entry) (g : List Triple)
    (hg : exposureGroupsOf l = [g])
    (a : Triple) (ha : a ∈ g) (b : Triple) (hb : b ∈ g) (hab : a ≠ b)
    (hdup : ¬ g.Nodup) :
    computeNbBrackets l = g.length ∧ g.length = l.length := by
  have hded : g.dedup.length ≠ 1 := by
    intro h1
    obtain ⟨x, hx⟩ := List.length_eq_one.1 h1
    have hax : a = x := by
      have h := List.mem_dedup.2 ha
      rw [hx] at h
      simpa using h
    have hbx : b = x := by
      have h := List.mem_dedup.2 hb
      rw [hx] at h
      simpa using h
    exact hab (hax.trans hbx.symm)
  constructor
  · unfold computeNbBrackets
    rw [hg]
    unfold selectFromGroups
    simp [hded]
  · have hflat : (exposureGroupsOf l).flatten = (sortInputs l).map Prod.snd :=
      walkGroups_flatten (sortInputs l)
    rw [hg] at hflat
    have hlen : g.length = ((sortInputs l).map Prod.snd).length := by
      rw [← hflat]
      simp
    rw [hlen]
    simp only [List.length_map]
    exact (sortBy_perm entryLe l).length_eq

unseal Rat.mul Rat.inv in
theorem single_mixed_group_count_witness :
    computeNbBrackets mixedEntries
        = [((1 : ℚ), (1 : ℚ), (100 : ℚ)), (1, 1, 100), (1, 2, 100)].length ∧
      [((1 : ℚ), (1 : ℚ), (100 : ℚ)), (1, 1, 100), (1, 2, 100)].length
        = mixedEntries.length :=
  single_mixed_group_count mixedEntries _ (by decide) (1, 1, 100) (by decide)
    (1, 2, 100) (by decide) (by decide) (by decide)
